import Mathlib

/-!
Shallow embedding of `parlai/chat_service/services/messenger/world_runner.py`
(`MessengerWorldRunner`): the task-world execution loop `_run_world`, the
overworld execution loop `_world_function` (the closure built by
`launch_overworld`), the launch operations `launch_task_world` /
`launch_overworld`, and `shutdown`.

Modelling conventions.  The program is a threaded polling system; we embed
each loop as a fuel-indexed recursive function over oracle streams:
`stop j` is the value the shared `system_done` flag has at the loop's j-th
read of it, `route p` is the value returned by the p-th call of the
overworld session's `parley`, and `activeBack a` is the Boolean outcome of
the a-th evaluation of `agent_state.get_active_agent() == overworld_agent`.
Successive reads in program order consume successive indices, so a monotone
`stop` stream models the write-once shared flag.  `fuel` bounds the number
of loop iterations we unroll; a result of `none` / `.fuelOut` means the
loop was still running after `fuel` iterations.  Loops additionally return
the sequence of externally visible events (parleys, sleeps, resource
releases, manager-collaborator calls) they perform, as ghost
instrumentation.  Python exceptions are modelled with `Except`; Python
truthiness of the onboarding-map lookup (`if onboard_type:`) is modelled by
`truthyStr`.
-/

namespace WorldRunner

/-- Model of a task/onboarding world session as observed by `_run_world`:
`episode_done i` is the value of `world.episode_done()` after `i` calls of
`parley`, `parley i` is the value returned by the i-th `parley()` call,
and `has_data`/`data` model `hasattr(world, "data")` and `world.data`. -/
structure World (α : Type) where
  episode_done : Nat → Bool
  parley : Nat → α
  has_data : Bool
  data : List (String × String)

/-- Externally visible events of one `_run_world` execution: a `parley` call
(with its return value), the fixed `time.sleep(0.3)` throttle, and the
`world.shutdown()` resource release. -/
inductive WEvent (α : Type) where
  | parley (v : α)
  | sleepShort
  | release
deriving DecidableEq

/-- Matcher for the resource-release event. -/
def isRelease : WEvent α → Bool
  | .release => true
  | _ => false

/-- Result of a completed `_run_world` run: `ret_val` and `world_data` are
the two components of the Python return value; `steps` (number of `parley`
calls made) and `jEnd` (index of the stop-flag read at the exit check) are
ghost instrumentation. -/
structure RunResult (α : Type) where
  ret_val : Option α
  world_data : List (String × String)
  steps : Nat
  jEnd : Nat
deriving DecidableEq

/-- The `while not world.episode_done() and not self.system_done:` loop of
`_run_world` (lines 72-74).  `i` counts `parley` calls so far, `j` indexes
reads of the shared stop flag, `ret` is the current value of the Python
local `ret_val`.  Exits return `(ret_val, parley count, index of the exit
check's flag read)`; `none` means fuel ran out with the loop still going.
The short-circuit of the Python `and` is kept: when `episode_done()` is
true the flag is not read at that check. -/
def parleyLoop (w : World α) (stop : Nat → Bool) :
    Nat → Nat → Nat → Option α → Option (Option α × Nat × Nat) × List (WEvent α)
  | 0, _, _, _ => (none, [])
  | fuel + 1, i, j, ret =>
    if w.episode_done i then (some (ret, i, j), [])
    else if stop j then (some (ret, i, j), [])
    else
      let v := w.parley i
      let r := parleyLoop w stop fuel (i + 1) (j + 1) (some v)
      (r.1, .parley v :: .sleepShort :: r.2)

/-- Model of `shared_utils.TaskState` (its class body is not under `src/`;
the field set is taken from its uses in `world_runner.py`).
Modelled from the spec: the session-instance field `world` and the handle
field `future` are null at creation ("an ownership reference to the running
session instance (set once the loop starts; null before)"). -/
structure TaskObj (σ : Type) where
  taskName : String
  worldName : String
  agents : List String
  isOverworld : Bool
  world : Option σ
  future : Option Nat
deriving DecidableEq

/-- Default `TaskObj`, used only as the out-of-range fallback of heap reads. -/
def defaultTaskObj : TaskObj σ :=
  ⟨"", "", [], false, none, none⟩

/-- The body of `_run_world` (lines 62-77): construct the world, store it on
the registry entry (`task.world = world`, line 70), run `parleyLoop`, then
`world.shutdown()` and read `world.data if hasattr(world, "data") else {}`.
`w` is the constructed session's behaviour and `sid` its identity (the
reference stored on the task object and released on exit); `j0` is the
stop-read index at which the loop starts. -/
def run_world (w : World α) (sid : σ) (stop : Nat → Bool) (fuel : Nat) (j0 : Nat)
    (task : TaskObj σ) : Option (RunResult α) × TaskObj σ × List (WEvent α) :=
  let task' : TaskObj σ := { task with world := some sid }
  match parleyLoop w stop fuel 0 j0 none with
  | (none, es) => (none, task', es)
  | (some (ret, i, j), es) =>
    (some ⟨ret, if w.has_data then w.data else [], i, j⟩, task', es ++ [.release])

/-- Python truthiness of `onboard_map.get(world_type)` as used by
`if onboard_type:` (line 145): `None` and the empty string are falsy, a
non-empty string is truthy (and is then used as the onboarding world name). -/
def truthyStr : Option String → Option String
  | none => none
  | some s => if s.isEmpty then none else some s

/-- Environment of one `_world_function` execution (the closure submitted by
`launch_overworld`): `stop j` is the j-th read of the shared `system_done`
flag (by the outer `while` check or by an onboarding sub-run's checks),
`route p` the value of the p-th `overworld.parley()` (with `none` for
Python `None`), `activeBack a` the a-th evaluation of
`agent_state.get_active_agent() == overworld_agent`, and
`onboardWorld o` / `onboardSid o` the behaviour and identity of the session
generated for the o-th onboarding run. -/
structure OverEnv (ρ α σ : Type) where
  stop : Nat → Bool
  route : Nat → Option ρ
  activeBack : Nat → Bool
  onboardWorld : Nat → World α
  onboardSid : Nat → σ

/-- Read-counters of the overworld loop: `j` stop-flag reads, `p` overworld
parleys, `a` active-agent polls, `o` onboarding runs so far. -/
structure OverSt where
  j : Nat
  p : Nat
  a : Nat
  o : Nat
deriving DecidableEq

/-- Externally visible events of `_world_function`: the 0.5 s re-poll sleep
for a null route, the manager/agent-state calls of the onboarding branch
(`_create_agent`, `set_active_agent`, `assign_agent_to_task`), the start of
an onboarding `_run_world` (with the onboarding world name) and its inner
events, storing `agent_state.onboard_data`, `add_agent_to_pool` with the
route value, the completion log line, the 5 s settling sleep, the 2 s
waiting-poll sleep, and `overworld.return_overworld()`. -/
inductive OEvent (ρ α : Type) where
  | sleepShort
  | createAgent
  | setActiveAgent
  | assignAgentToTask
  | startOnboard (kind : String)
  | onboardEvt (e : WEvent α)
  | setOnboardData (d : List (String × String))
  | addToPool (r : ρ)
  | log
  | sleepLong
  | sleepWait
  | returnOverworld
deriving DecidableEq

/-- Matcher for the start of an onboarding `_run_world`. -/
def isStartOnboard : OEvent ρ α → Bool
  | .startOnboard _ => true
  | _ => false

/-- Matcher for the start of an onboarding run with a given world name. -/
def isStartOnboardKind (k : String) : OEvent ρ α → Bool
  | .startOnboard k' => k' == k
  | _ => false

/-- Matcher for calls on the manager collaborator or the agent state, the
calls §6 of the spec lists on the manager side of the interface. -/
def isManagerCall : OEvent ρ α → Bool
  | .createAgent => true
  | .setActiveAgent => true
  | .assignAgentToTask => true
  | .setOnboardData _ => true
  | .addToPool _ => true
  | _ => false

/-- The `while agent_state.get_active_agent() != overworld_agent:` waiting
poll (lines 157-158).  It reads only the active-agent stream — never the
stop flag.  Returns the advanced poll counter, or `none` on fuel
exhaustion (the poll still spinning). -/
def waitReturn (env : OverEnv ρ α σ) : Nat → Nat → Option Nat × List (OEvent ρ α)
  | 0, _ => (none, [])
  | fuel + 1, a =>
    if env.activeBack a then (some (a + 1), [])
    else
      let r := waitReturn env fuel (a + 1)
      (r.1, .sleepWait :: r.2)

/-- Outcome of `_world_function`: `ret v` models `return world_type` with
`world_type` last assigned `v`; `unboundLocal` models reaching the `return`
with `world_type` never assigned (the Python `UnboundLocalError`);
`fuelOut` means the loop was still running when fuel ran out. -/
inductive OverOutcome (ρ : Type) where
  | ret (v : Option ρ)
  | unboundLocal
  | fuelOut
deriving DecidableEq

/-- Body of one `_world_function` iteration for a non-null route `rt`
(lines 144-160): look up `onboard_map.get(world_type)`; if truthy, create
and assign the onboarding agent, run `_run_world` synchronously for the
mapped world name and store its data payload on the agent state; in every
case call `add_agent_to_pool(agent_state, world_type)`, log, sleep 5 s,
run the waiting poll, and call `return_overworld()`.  `st` holds the read
counters after the iteration's flag read and parley.  Returns the advanced
counters (`none` on fuel exhaustion inside the body), the task object
(mutated by an onboarding `_run_world`), and the emitted events. -/
def overIter (env : OverEnv ρ α σ) (m : ρ → Option String) (fuel : Nat) (st : OverSt)
    (task : TaskObj σ) (rt : ρ) : Option OverSt × TaskObj σ × List (OEvent ρ α) :=
  match truthyStr (m rt) with
  | some kind =>
    let w := env.onboardWorld st.o
    let run := run_world w (env.onboardSid st.o) env.stop fuel st.j task
    let pre : List (OEvent ρ α) :=
      [.createAgent, .setActiveAgent, .assignAgentToTask, .startOnboard kind]
        ++ run.2.2.map .onboardEvt
    match run.1 with
    | none => (none, run.2.1, pre)
    | some r =>
      let post : List (OEvent ρ α) :=
        pre ++ [.setOnboardData r.world_data, .addToPool rt, .log, .sleepLong]
      match waitReturn env fuel st.a with
      | (none, ws) => (none, run.2.1, post ++ ws)
      | (some a', ws) =>
        (some ⟨r.jEnd, st.p, a', st.o + 1⟩, run.2.1, post ++ ws ++ [.returnOverworld])
  | none =>
    let post : List (OEvent ρ α) := [.addToPool rt, .log, .sleepLong]
    match waitReturn env fuel st.a with
    | (none, ws) => (none, task, post ++ ws)
    | (some a', ws) => (some ⟨st.j, st.p, a', st.o⟩, task, post ++ ws ++ [.returnOverworld])

/-- The `while not self.system_done:` loop of `_world_function`
(lines 138-161) together with its final `return world_type`.  `last` is the
current binding of the Python local `world_type` (`none` = never assigned,
`some v` = last assigned `v`, where `v` itself is the possibly-null route).
On a null route the loop sleeps 0.5 s and re-polls; on a non-null route it
executes `overIter`.  Returns the outcome, the final read counters, the
final task object, and the emitted events. -/
def overLoop (env : OverEnv ρ α σ) (m : ρ → Option String) :
    Nat → OverSt → TaskObj σ → Option (Option ρ) →
    OverOutcome ρ × OverSt × TaskObj σ × List (OEvent ρ α)
  | 0, st, task, _ => (.fuelOut, st, task, [])
  | fuel + 1, st, task, last =>
    if env.stop st.j then
      match last with
      | some v => (.ret v, st, task, [])
      | none => (.unboundLocal, st, task, [])
    else
      match env.route st.p with
      | none =>
        let r := overLoop env m fuel ⟨st.j + 1, st.p + 1, st.a, st.o⟩ task (some none)
        (r.1, r.2.1, r.2.2.1, .sleepShort :: r.2.2.2)
      | some rt =>
        match overIter env m fuel ⟨st.j + 1, st.p + 1, st.a, st.o⟩ task rt with
        | (none, task', es) => (.fuelOut, ⟨st.j + 1, st.p + 1, st.a, st.o⟩, task', es)
        | (some st', task', es) =>
          let r := overLoop env m fuel st' task' (some (some rt))
          (r.1, r.2.1, r.2.2.1, es ++ r.2.2.2)

/-- Key lookup in the `self.tasks` dict, modelled as an association list in
key-insertion order (Python dict semantics). -/
def assocGet (l : List (String × Nat)) (k : String) : Option Nat :=
  match l with
  | [] => none
  | (k', v) :: t => if k' = k then some v else assocGet t k

/-- Key assignment `self.tasks[task_name] = task`: overwrite in place if the
key exists (keeping its position, as Python dicts do), else append. -/
def assocSet (l : List (String × Nat)) (k : String) (v : Nat) : List (String × Nat) :=
  match l with
  | [] => [(k, v)]
  | (k', v') :: t => if k' = k then (k, v) :: t else (k', v') :: assocSet t k v

/-- In-place update of the object at index `i` of the object heap,
modelling mutation of a Python object through one of its references. -/
def listModify (f : TaskObj σ → TaskObj σ) : Nat → List (TaskObj σ) → List (TaskObj σ)
  | _, [] => []
  | 0, x :: t => f x :: t
  | n + 1, x :: t => x :: listModify f n t

/-- A job submitted to the executor: the heap index of the `TaskState`
object its closure captured, and its future's identifier. -/
structure Job where
  objId : Nat
  futId : Nat
deriving DecidableEq

/-- State of a `MessengerWorldRunner`: the shared `system_done` flag, a
`drained` ghost flag recording that `executor.shutdown()` has completed,
the heap of `TaskState` objects (so that registry overwrites are
distinguished from object mutation), the `self.tasks` registry mapping task
names to heap indices, and the list of submitted jobs. -/
structure Runner (σ : Type) where
  system_done : Bool
  drained : Bool
  objects : List (TaskObj σ)
  registry : List (String × Nat)
  jobs : List Job
deriving DecidableEq

/-- Model of `MessengerWorldRunner.__init__` (state fields only): `system_done`
starts false, the registry and job list empty. -/
def mkRunner (σ : Type) : Runner σ :=
  ⟨false, false, [], [], []⟩

/-- Model of `launch_task_world` (lines 80-103): construct a `TaskState` (world and
future fields null), assign it into the registry under `task_name`
(overwriting any prior entry), submit the closure as a job, then set the
object's `future` field to the returned future.  Returns the new runner
state and the future's identifier. -/
def launch_task_world (r : Runner σ) (task_name world_name : String)
    (agents : List String) : Runner σ × Nat :=
  let oid := r.objects.length
  let fut := r.jobs.length
  let obj : TaskObj σ := ⟨task_name, world_name, agents, false, none, none⟩
  let objects := listModify (fun o => { o with future := some fut }) oid (r.objects ++ [obj])
  ({ r with
      objects := objects
      registry := assocSet r.registry task_name oid
      jobs := r.jobs ++ [⟨oid, fut⟩] }, fut)

/-- Model of `launch_overworld` (lines 105-165, registry effect): same bookkeeping
as `launch_task_world` but the `TaskState` is marked `is_overworld=True`
and holds exactly the supervising agent; the submitted closure is
`_world_function`, embedded above as `overLoop`. -/
def launch_overworld (r : Runner σ) (task_name overworld_name : String)
    (agents : List String) : Runner σ × Nat :=
  let oid := r.objects.length
  let fut := r.jobs.length
  let obj : TaskObj σ := ⟨task_name, overworld_name, agents, true, none, none⟩
  let objects := listModify (fun o => { o with future := some fut }) oid (r.objects ++ [obj])
  ({ r with
      objects := objects
      registry := assocSet r.registry task_name oid
      jobs := r.jobs ++ [⟨oid, fut⟩] }, fut)

/-- The release pass of `shutdown` (lines 42-44): iterate the registry in
dict order and call `task.world.shutdown()` on every entry whose `world`
field is non-null.  `raises s` says whether releasing session `s` raises;
the Python code has no exception handler here, so the first raising release
propagates (`Except.error`).  On success, returns the released sessions in
call order. -/
def releasePass (objs : List (TaskObj σ)) (raises : σ → Bool) :
    List (String × Nat) → Except σ (List σ)
  | [] => .ok []
  | (_, oid) :: t =>
    match (objs.getD oid defaultTaskObj).world with
    | none => releasePass objs raises t
    | some s =>
      if raises s then .error s
      else
        match releasePass objs raises t with
        | .error e => .error e
        | .ok rest => .ok (s :: rest)

/-- Model of `shutdown` (lines 40-48): run the release pass; if it raises, the
exception propagates out of `shutdown` before `self.system_done = True` is
reached.  Otherwise set the stop flag, drain the executor, and report the
sessions released by the pass. -/
def shutdown (r : Runner σ) (raises : σ → Bool) : Except σ (Runner σ × List σ) :=
  match releasePass r.objects raises r.registry with
  | .error e => .error e
  | .ok rel => .ok ({ r with system_done := true, drained := true }, rel)

/-- The runner's public operations, for stating flag invariants. -/
inductive Op (σ : Type) where
  | launchTask (name wname : String) (agents : List String)
  | launchOver (name oname : String) (agents : List String)
  | doShutdown (raises : σ → Bool)

/-- Effect of one public operation on the runner state.  A `shutdown` whose
release pass raises leaves the runner record unchanged (the flag assignment
is never reached). -/
def applyOp (r : Runner σ) : Op σ → Runner σ
  | .launchTask n w a => (launch_task_world r n w a).1
  | .launchOver n o a => (launch_overworld r n o a).1
  | .doShutdown f =>
    match shutdown r f with
    | .ok (r', _) => r'
    | .error _ => r

/-! ## Lemmas about the task-world loop -/

/-- Soundness of `parleyLoop`: a terminating run exits at the first index
whose check succeeds, its flag reads advance in lockstep with its parleys,
its return value is the last parley's value, and it performs no resource
release (the release happens after the loop, in `run_world`). -/
theorem parleyLoop_sound {α : Type} (w : World α) (stop : Nat → Bool) :
    ∀ fuel i j ret ret' i' j' es,
      parleyLoop w stop fuel i j ret = (some (ret', i', j'), es) →
      i ≤ i' ∧ j' = j + (i' - i) ∧
      (w.episode_done i' = true ∨ stop j' = true) ∧
      (∀ k, i ≤ k → k < i' → w.episode_done k = false ∧ stop (j + (k - i)) = false) ∧
      ret' = (if i' = i then ret else some (w.parley (i' - 1))) ∧
      es.countP (fun e => isRelease e) = 0 := by
  intro fuel
  induction fuel with
  | zero =>
    intro i j ret ret' i' j' es h
    simp [parleyLoop] at h
  | succ fuel ih =>
    intro i j ret ret' i' j' es h
    by_cases hd : w.episode_done i
    · rw [parleyLoop, if_pos hd] at h
      obtain ⟨h1, h2⟩ := Prod.mk.injEq .. ▸ h
      obtain ⟨h3, h4, h5⟩ := by simpa using h1
      subst h3 h4 h5
      subst h2
      refine ⟨le_refl _, by omega, Or.inl hd, ?_, by simp, by simp⟩
      intro k hk1 hk2
      omega
    · by_cases hs : stop j
      · rw [parleyLoop, if_neg hd, if_pos hs] at h
        obtain ⟨h1, h2⟩ := Prod.mk.injEq .. ▸ h
        obtain ⟨h3, h4, h5⟩ := by simpa using h1
        subst h3 h4 h5
        subst h2
        refine ⟨le_refl _, by omega, Or.inr hs, ?_, by simp, by simp⟩
        intro k hk1 hk2
        omega
      · rcases hr : parleyLoop w stop fuel (i + 1) (j + 1) (some (w.parley i)) with ⟨r1, r2⟩
        rw [parleyLoop, if_neg hd, if_neg hs] at h
        simp only [hr] at h
        obtain ⟨h1, h2⟩ := Prod.mk.injEq .. ▸ h
        subst h1
        obtain ⟨ha, hb, hc, hd', he, hf⟩ := ih (i + 1) (j + 1) (some (w.parley i)) ret' i' j' r2 hr
        subst h2
        refine ⟨by omega, by omega, hc, ?_, ?_, by simpa [isRelease] using hf⟩
        · intro k hk1 hk2
          by_cases hki : k = i
          · subst hki
            constructor
            · simpa using hd
            · simpa using hs
          · have hk1' : i + 1 ≤ k := by omega
            obtain ⟨p1, p2⟩ := hd' k hk1' hk2
            refine ⟨p1, ?_⟩
            have : j + 1 + (k - (i + 1)) = j + (k - i) := by omega
            rwa [this] at p2
        · have hii : i' ≠ i := by omega
          rw [if_neg hii] at *
          by_cases hi1 : i' = i + 1
          · rw [if_pos hi1] at he
            subst hi1
            simpa using he
          · rwa [if_neg hi1] at he

/-- Last element of a list with one element appended. -/
theorem getLast?_app {β : Type} : ∀ (l : List β) (x : β), (l ++ [x]).getLast? = some x := by
  intro l x
  induction l with
  | nil => rfl
  | cons a t ih =>
    rcases t with _ | ⟨b, t'⟩
    · rfl
    · simpa using ih

/-- C3: for every task-world run, the stepping loop exits exactly when the
session reports episode-complete or the shared stop flag is observed true
(and at no earlier check did either hold), and on exit it releases the
session's resources exactly once (as the final action), reads the session's
auxiliary data payload (empty mapping if the session has none), and returns
the pair of last step result and data payload. -/
theorem run_world_exit_behaviour {α σ : Type} (w : World α) (sid : σ) (stop : Nat → Bool)
    (fuel j0 : Nat) (task : TaskObj σ) (res : RunResult α) (task' : TaskObj σ)
    (es : List (WEvent α))
    (h : run_world w sid stop fuel j0 task = (some res, task', es)) :
    (w.episode_done res.steps = true ∨ stop res.jEnd = true) ∧
    (∀ k, k < res.steps → w.episode_done k = false ∧ stop (j0 + k) = false) ∧
    res.jEnd = j0 + res.steps ∧
    res.ret_val = (if res.steps = 0 then none else some (w.parley (res.steps - 1))) ∧
    res.world_data = (if w.has_data then w.data else []) ∧
    es.countP (fun e => isRelease e) = 1 ∧
    es.getLast? = some .release := by
  rcases hp : parleyLoop w stop fuel 0 j0 none with ⟨o, es0⟩
  rcases o with _ | ⟨ret, i, j⟩
  · rw [run_world] at h
    simp only [hp] at h
    exact absurd (congrArg Prod.fst h) (by simp)
  · rw [run_world] at h
    simp only [hp] at h
    obtain ⟨h1, h2, h3⟩ := by simpa using h
    obtain ⟨ha, hb, hc, hd, he, hf⟩ := parleyLoop_sound w stop fuel 0 j0 none ret i j es0 hp
    subst h3
    have hsteps : res.steps = i := by rw [← h1]
    have hjEnd : res.jEnd = j := by rw [← h1]
    have hret : res.ret_val = ret := by rw [← h1]
    have hdata : res.world_data = (if w.has_data then w.data else []) := by rw [← h1]
    refine ⟨?_, ?_, ?_, ?_, hdata, ?_, getLast?_app es0 .release⟩
    · rw [hsteps, hjEnd]
      exact hc
    · intro k hk
      rw [hsteps] at hk
      have := hd k (Nat.zero_le k) hk
      simpa using this
    · rw [hsteps, hjEnd]
      omega
    · rw [hret, hsteps]
      simpa using he
    · rw [List.countP_append, hf]
      rfl

/-! ## Concrete instances used by witnesses and counterexamples -/

/-- Concrete session: episode completes after two parleys, has a data
attribute. -/
def w3c : World Nat := ⟨fun i => decide (i = 2), fun i => i * 10, true, [("k", "v")]⟩

/-- Stop flag never set. -/
def stop3c : Nat → Bool := fun _ => false

/-- Concrete task-world registry entry. -/
def task3c : TaskObj Nat := ⟨"t", "w", ["a"], false, none, none⟩

/-- Result of running `w3c` with session id 5 and `stop3c`. -/
def res3c : RunResult Nat := ⟨some 10, [("k", "v")], 2, 2⟩

/-- Events of that run. -/
def es3c : List (WEvent Nat) := [.parley 0, .sleepShort, .parley 10, .sleepShort, .release]

/-- Witness for `run_world_exit_behaviour`: the concrete run of `w3c`
terminates at step 2 with the completed episode, returns the last parley's
value with the data payload, and releases once as its final action. -/
theorem run_world_exit_behaviour_witness :
    (w3c.episode_done res3c.steps = true ∨ stop3c res3c.jEnd = true) ∧
    (w3c.episode_done 1 = false ∧ stop3c (0 + 1) = false) ∧
    res3c.jEnd = 0 + res3c.steps ∧
    res3c.ret_val = (if res3c.steps = 0 then none else some (w3c.parley (res3c.steps - 1))) ∧
    res3c.world_data = (if w3c.has_data then w3c.data else []) ∧
    es3c.countP (fun e => isRelease e) = 1 ∧
    es3c.getLast? = some .release := by
  have h := run_world_exit_behaviour w3c 5 stop3c 10 0 task3c res3c
    { task3c with world := some 5 } es3c (by decide)
  exact ⟨h.1, h.2.1 1 (by decide), h.2.2.1, h.2.2.2.1, h.2.2.2.2.1,
    h.2.2.2.2.2.1, h.2.2.2.2.2.2⟩

/-! ## C1: loop behaviour once the stop flag is set -/

/-- C1 (amended): once the stop flag reads true, the task-world RUNNING
loop and the overworld SUPERVISING check each exit at that very check, with
no further parley and no further event; but the WAITING_FOR_RETURN poll
never reads the stop flag: whenever the manager keeps reporting the active
agent distinct from the supervising agent, the poll spins for its entire
fuel — regardless of the stop stream in its environment. -/
theorem stop_flag_one_interval {α ρ σ : Type} :
    (∀ (w : World α) (stop : Nat → Bool) (fuel i j : Nat) (ret : Option α),
      stop j = true → parleyLoop w stop (fuel + 1) i j ret = (some (ret, i, j), [])) ∧
    (∀ (env : OverEnv ρ α σ) (m : ρ → Option String) (fuel : Nat) (st : OverSt)
      (task : TaskObj σ) (v : Option ρ),
      env.stop st.j = true →
      overLoop env m (fuel + 1) st task (some v) = (.ret v, st, task, []) ∧
      overLoop env m (fuel + 1) st task none = (.unboundLocal, st, task, [])) ∧
    (∀ (env : OverEnv ρ α σ) (fuel a : Nat),
      (∀ x, env.activeBack x = false) →
      waitReturn env fuel a = (none, List.replicate fuel .sleepWait)) := by
  refine ⟨?_, ?_, ?_⟩
  · intro w stop fuel i j ret h
    by_cases hd : w.episode_done i
    · rw [parleyLoop, if_pos hd]
    · rw [parleyLoop, if_neg hd, if_pos h]
  · intro env m fuel st task v h
    constructor
    · rw [overLoop, if_pos h]
    · rw [overLoop, if_pos h]
  · intro env fuel a h
    induction fuel generalizing a with
    | zero => rfl
    | succ fuel ih =>
      rw [waitReturn, if_neg (by simp [h a])]
      rw [ih (a + 1)]
      rfl

/-- Environment refuting C1 as stated: the stop flag is true from its
second read (index 1) on, the overworld routes every parley to value 0,
the map sends no route to an onboarding world, and the manager never
reports the supervising agent active again. -/
def envC1 : OverEnv Nat Nat Nat :=
  ⟨fun j => decide (1 ≤ j), fun _ => some 0, fun _ => false,
    fun _ => ⟨fun _ => true, fun _ => 0, false, []⟩, fun _ => 0⟩

/-- Concrete overworld registry entry. -/
def taskC : TaskObj Nat := ⟨"t", "ow", ["a"], true, none, none⟩

/-- Counterexample to C1 as stated: with `envC1` the stop flag is already
true at every read from index 1 on, yet after 30 further iterations the
overworld job is still running (stuck in the WAITING_FOR_RETURN poll), so
it does not terminate within one step-plus-delay interval of the flag being
set. -/
theorem overLoop_stuck_after_stop :
    envC1.stop 1 = true ∧
    (overLoop envC1 (fun _ => none) 30 ⟨0, 0, 0, 0⟩ taskC none).1 = OverOutcome.fuelOut := by
  constructor
  · rfl
  · decide

/-- Environment in which the stop flag is already true at its very first
read, before any supervisory step. -/
def envC4 : OverEnv Nat Nat Nat :=
  ⟨fun _ => true, fun _ => some 0, fun _ => false,
    fun _ => ⟨fun _ => true, fun _ => 0, false, []⟩, fun _ => 0⟩

/-- Witness for `stop_flag_one_interval`: concrete immediate exits of the
task loop and the supervising check under a set flag, and a concrete
three-step spin of the waiting poll with the agent never handed back. -/
theorem stop_flag_one_interval_witness :
    parleyLoop w3c (fun _ => true) 1 0 0 none = (some (none, 0, 0), []) ∧
    overLoop envC4 (fun _ => none) 5 ⟨0, 0, 0, 0⟩ taskC (some (some 7)) =
      (.ret (some 7), ⟨0, 0, 0, 0⟩, taskC, []) ∧
    waitReturn envC1 3 0 = (none, List.replicate 3 .sleepWait) := by
  refine ⟨?_, ?_, ?_⟩
  · exact (stop_flag_one_interval (α := Nat) (ρ := Nat) (σ := Nat)).1 w3c
      (fun _ => true) 0 0 0 none rfl
  · exact ((stop_flag_one_interval (α := Nat) (ρ := Nat) (σ := Nat)).2.1 envC4
      (fun _ => none) 4 ⟨0, 0, 0, 0⟩ taskC (some 7) rfl).1
  · exact (stop_flag_one_interval (α := Nat) (ρ := Nat) (σ := Nat)).2.2 envC1 3 0
      (fun _ => rfl)

/-! ## C4: overworld exit value -/

/-- One non-null-route iteration of the overworld loop leaves the parley
counter unchanged (the parley that produced the route was counted by the
caller). -/
theorem overIter_p {ρ α σ : Type} (env : OverEnv ρ α σ) (m : ρ → Option String)
    (fuel : Nat) (st : OverSt) (task : TaskObj σ) (rt : ρ) (st' : OverSt)
    (task' : TaskObj σ) (es : List (OEvent ρ α))
    (h : overIter env m fuel st task rt = (some st', task', es)) : st'.p = st.p := by
  rcases h0 : truthyStr (m rt) with _ | kind
  · rw [overIter] at h
    simp only [h0] at h
    rcases hw : waitReturn env fuel st.a with ⟨o, ws⟩
    simp only [hw] at h
    rcases o with _ | a'
    · simp at h
    · obtain ⟨h1, _, _⟩ := by simpa using h
      rw [← h1]
  · rw [overIter] at h
    simp only [h0] at h
    rcases hr : run_world (env.onboardWorld st.o) (env.onboardSid st.o) env.stop fuel st.j task
      with ⟨o, tk, wes⟩
    simp only [hr] at h
    rcases o with _ | r
    · simp at h
    · rcases hw : waitReturn env fuel st.a with ⟨o2, ws⟩
      simp only [hw] at h
      rcases o2 with _ | a'
      · simp at h
      · obtain ⟨h1, _, _⟩ := by simpa using h
        rw [← h1]

/-- Unfolding of one overworld iteration at a check where the stop flag is
false: the iteration's behaviour does not depend on `last`. -/
theorem overLoop_step {ρ α σ : Type} (env : OverEnv ρ α σ) (m : ρ → Option String)
    (fuel : Nat) (st : OverSt) (task : TaskObj σ) (last : Option (Option ρ))
    (hstop : env.stop st.j = false) :
    overLoop env m (fuel + 1) st task last =
      (match env.route st.p with
       | none =>
         let r := overLoop env m fuel ⟨st.j + 1, st.p + 1, st.a, st.o⟩ task (some none)
         (r.1, r.2.1, r.2.2.1, .sleepShort :: r.2.2.2)
       | some rt =>
         match overIter env m fuel ⟨st.j + 1, st.p + 1, st.a, st.o⟩ task rt with
         | (none, task', es) => (.fuelOut, ⟨st.j + 1, st.p + 1, st.a, st.o⟩, task', es)
         | (some st', task', es) =>
           let r := overLoop env m fuel st' task' (some (some rt))
           (r.1, r.2.1, r.2.2.1, es ++ r.2.2.2)) := by
  rcases last with _ | v
  · rw [overLoop, if_neg (by simp [hstop])]
  · rw [overLoop, if_neg (by simp [hstop])]

/-- Exit invariant of the overworld loop: under the invariant that `last`
records the route value of the most recent parley, a `.ret` exit happens at
a check where the stop flag is true and carries the route value of the last
parley made, and an `.unboundLocal` exit happens at a stop-flag check
reached with no parley made at all. -/
theorem overLoop_exit_inv {ρ α σ : Type} (env : OverEnv ρ α σ) (m : ρ → Option String) :
    ∀ fuel st (task : TaskObj σ) last out st' task' es,
      overLoop env m fuel st task last = (out, st', task', es) →
      ((∀ v, last = some v → 1 ≤ st.p ∧ v = env.route (st.p - 1)) ∧
        (last = none → st.p = 0)) →
      ((∀ v, out = .ret v → env.stop st'.j = true ∧ 1 ≤ st'.p ∧ v = env.route (st'.p - 1)) ∧
        (out = .unboundLocal → env.stop st'.j = true ∧ st'.p = 0)) := by
  intro fuel
  induction fuel with
  | zero =>
    intro st task last out st' task' es h hinv
    rw [overLoop] at h
    obtain ⟨h1, _⟩ := Prod.mk.injEq .. ▸ h
    constructor
    · intro v hv
      rw [← h1] at hv
      exact absurd hv (by simp)
    · intro hv
      rw [← h1] at hv
      exact absurd hv (by simp)
  | succ fuel ih =>
    intro st task last out st' task' es h hinv
    by_cases hstop : env.stop st.j
    · rcases last with _ | v
      · rw [overLoop, if_pos hstop] at h
        obtain ⟨h1, h2, _⟩ := by simpa using h
        constructor
        · intro v hv
          rw [← h1] at hv
          exact absurd hv (by simp)
        · intro _
          rw [← h2]
          exact ⟨hstop, hinv.2 rfl⟩
      · rw [overLoop, if_pos hstop] at h
        obtain ⟨h1, h2, _⟩ := by simpa using h
        constructor
        · intro v' hv
          rw [← h1] at hv
          have hvv : v = v' := by simpa using hv
          subst hvv
          rw [← h2]
          exact ⟨hstop, (hinv.1 v rfl).1, (hinv.1 v rfl).2⟩
        · intro hv
          rw [← h1] at hv
          exact absurd hv (by simp)
    · rcases hroute : env.route st.p with _ | rt
      · have hstop' : env.stop st.j = false := by simpa using hstop
        rw [overLoop_step env m fuel st task last hstop'] at h
        simp only [hroute] at h
        rcases hrec : overLoop env m fuel ⟨st.j + 1, st.p + 1, st.a, st.o⟩ task (some none)
          with ⟨out2, st2, task2, es2⟩
        simp only [hrec] at h
        obtain ⟨h1, h2, h3, _⟩ := by simpa using h
        subst h1 h2 h3
        refine ih _ _ _ _ _ _ _ hrec ⟨?_, by simp⟩
        intro v hv
        have hvn : v = none := by simpa using hv.symm
        subst hvn
        simpa using hroute.symm
      · have hstop' : env.stop st.j = false := by simpa using hstop
        rw [overLoop_step env m fuel st task last hstop'] at h
        simp only [hroute] at h
        rcases hit : overIter env m fuel ⟨st.j + 1, st.p + 1, st.a, st.o⟩ task rt
          with ⟨o2, task2, es2⟩
        simp only [hit] at h
        rcases o2 with _ | st2
        · obtain ⟨h1, _⟩ := by simpa using h
          constructor
          · intro v hv
            rw [← h1] at hv
            exact absurd hv (by simp)
          · intro hv
            rw [← h1] at hv
            exact absurd hv (by simp)
        · rcases hrec : overLoop env m fuel st2 task2 (some (some rt))
            with ⟨out3, st3, task3, es3⟩
          simp only [hrec] at h
          obtain ⟨h1, h2, h3, _⟩ := by simpa using h
          subst h1 h2 h3
          have hp2 : st2.p = st.p + 1 := overIter_p env m fuel ⟨st.j + 1, st.p + 1, st.a, st.o⟩
            task rt st2 task2 es2 hit
          refine ih _ _ _ _ _ _ _ hrec ⟨?_, by simp⟩
          intro v hv
          have hvv : v = some rt := by simpa using hv.symm
          subst hvv
          rw [hp2]
          simpa using hroute.symm

/-- C4 (amended): the Overworld Execution Loop exits only at a check where
the stop flag reads true.  When at least one supervisory step has run, it
returns the last observed route value; when the stop flag is observed true
before the first supervisory step, the Python local holding the route was
never assigned, so the loop fails with an unbound-local error instead of
returning a value. -/
theorem overworld_exit_only_on_stop {ρ α σ : Type} (env : OverEnv ρ α σ)
    (m : ρ → Option String) (fuel : Nat) (task : TaskObj σ)
    (out : OverOutcome ρ) (st' : OverSt) (task' : TaskObj σ) (es : List (OEvent ρ α))
    (h : overLoop env m fuel ⟨0, 0, 0, 0⟩ task none = (out, st', task', es)) :
    (∀ v, out = .ret v → env.stop st'.j = true ∧ 1 ≤ st'.p ∧ v = env.route (st'.p - 1)) ∧
    (out = .unboundLocal → env.stop st'.j = true ∧ st'.p = 0) := by
  refine overLoop_exit_inv env m fuel ⟨0, 0, 0, 0⟩ task none out st' task' es h ⟨?_, ?_⟩
  · intro v hv
    exact absurd hv (by simp)
  · intro _
    rfl

/-- Counterexample to C4 as stated: with the stop flag already true before
the first supervisory step, the loop does not return a "last observed route
value" — it exits with the unbound-local failure (`return world_type` with
`world_type` never assigned). -/
theorem overworld_unbound_local_on_immediate_stop :
    (overLoop envC4 (fun _ => none) 5 ⟨0, 0, 0, 0⟩ taskC none).1 = OverOutcome.unboundLocal := by
  decide

/-- Overworld environment for the C4 witness: stop flag set from read 1 on,
every supervisory step routes to 5, the agent returns immediately. -/
def envW4 : OverEnv Nat Nat Nat :=
  ⟨fun j => decide (1 ≤ j), fun _ => some 5, fun _ => true,
    fun _ => ⟨fun _ => true, fun _ => 0, false, []⟩, fun _ => 0⟩

/-- Witness for `overworld_exit_only_on_stop`: a concrete run that made one
supervisory step exits at a true stop-flag read and returns that step's
route value. -/
theorem overworld_exit_only_on_stop_witness :
    envW4.stop (OverSt.mk 1 1 1 0).j = true ∧ 1 ≤ (OverSt.mk 1 1 1 0).p ∧
    some 5 = envW4.route ((OverSt.mk 1 1 1 0).p - 1) := by
  exact (overworld_exit_only_on_stop envW4 (fun _ => none) 5 taskC (.ret (some 5))
    ⟨1, 1, 1, 0⟩ taskC [.addToPool 5, .log, .sleepLong, .returnOverworld]
    (by decide)).1 (some 5) rfl

/-! ## C5: onboarding routing -/

/-- Every event of the waiting poll is a 2 s sleep. -/
theorem waitReturn_events_sleep {ρ α σ : Type} (env : OverEnv ρ α σ) :
    ∀ fuel a, ∀ e ∈ (waitReturn env fuel a).2, e = OEvent.sleepWait := by
  intro fuel
  induction fuel with
  | zero =>
    intro a e he
    simp [waitReturn] at he
  | succ fuel ih =>
    intro a e he
    rw [waitReturn] at he
    by_cases hb : env.activeBack a
    · rw [if_pos hb] at he
      simp at he
    · rw [if_neg hb] at he
      simp only [List.mem_cons] at he
      rcases he with he | he
      · exact he
      · exact ih (a + 1) e he

/-- Auxiliary counting principle: a predicate false on every element of a
list counts zero occurrences. -/
theorem countP_eq_zero_of_all {β : Type} (p : β → Bool) (l : List β)
    (h : ∀ e ∈ l, p e = false) : l.countP p = 0 := by
  refine List.countP_eq_zero.mpr ?_
  intro a ha
  simp [h a ha]

/-- C5 (amended): for a non-null route whose map lookup is truthy (a
non-empty onboarding world name), the iteration runs exactly one onboarding
task-world loop, for that world name, strictly before the manager's
add-to-pool notification; for a route whose lookup is falsy (absent key,
null value, or empty-string value), no onboarding loop runs and the manager
is still notified with the route value. -/
theorem onboarding_routing {ρ α σ : Type} (env : OverEnv ρ α σ) (m : ρ → Option String)
    (fuel : Nat) (st : OverSt) (task : TaskObj σ) (rt : ρ) (st' : OverSt)
    (task' : TaskObj σ) (es : List (OEvent ρ α))
    (h : overIter env m fuel st task rt = (some st', task', es)) :
    (∀ kind, truthyStr (m rt) = some kind →
      ∃ pre post, es = pre ++ OEvent.addToPool rt :: post ∧
        pre.countP (fun e => isStartOnboard e) = 1 ∧
        pre.countP (fun e => isStartOnboardKind kind e) = 1 ∧
        post.countP (fun e => isStartOnboard e) = 0) ∧
    (truthyStr (m rt) = none →
      es.countP (fun e => isStartOnboard e) = 0 ∧
      ∃ pre post, es = pre ++ OEvent.addToPool rt :: post) := by
  rcases h0 : truthyStr (m rt) with _ | kind
  · rw [overIter] at h
    simp only [h0] at h
    rcases hw : waitReturn env fuel st.a with ⟨o, ws⟩
    simp only [hw] at h
    rcases o with _ | a'
    · simp at h
    · obtain ⟨_, _, h3⟩ := by simpa using h
      subst h3
      have hws : ∀ e ∈ ws, e = OEvent.sleepWait := by
        intro e he
        refine waitReturn_events_sleep env fuel st.a e ?_
        rw [hw]
        exact he
      constructor
      · intro kind hk
        exact absurd hk (by simp)
      · intro _
        constructor
        · refine countP_eq_zero_of_all _ _ ?_
          intro e he
          simp only [List.mem_cons, List.mem_append, List.mem_singleton] at he
          rcases he with rfl | rfl | rfl | he | rfl | he
          · rfl
          · rfl
          · rfl
          · rw [hws e he]
            rfl
          · rfl
          · simp at he
        · exact ⟨[], OEvent.log :: OEvent.sleepLong :: (ws ++ [OEvent.returnOverworld]),
            by simp⟩
  · rw [overIter] at h
    simp only [h0] at h
    rcases hr : run_world (env.onboardWorld st.o) (env.onboardSid st.o) env.stop fuel st.j task
      with ⟨o, tk, wes⟩
    simp only [hr] at h
    rcases o with _ | r
    · simp at h
    · rcases hw : waitReturn env fuel st.a with ⟨o2, ws⟩
      simp only [hw] at h
      rcases o2 with _ | a'
      · simp at h
      · obtain ⟨_, _, h3⟩ := by simpa using h
        subst h3
        have hws : ∀ e ∈ ws, e = OEvent.sleepWait := by
          intro e he
          refine waitReturn_events_sleep env fuel st.a e ?_
          rw [hw]
          exact he
        constructor
        · intro kind' hk
          have hkk : kind' = kind := by simpa using hk.symm
          subst hkk
          refine ⟨OEvent.createAgent :: OEvent.setActiveAgent :: OEvent.assignAgentToTask ::
              OEvent.startOnboard kind' ::
              (wes.map OEvent.onboardEvt ++ [OEvent.setOnboardData r.world_data]),
            OEvent.log :: OEvent.sleepLong :: (ws ++ [OEvent.returnOverworld]),
            by simp, ?_, ?_, ?_⟩
          · have hmap : ((wes.map OEvent.onboardEvt
                ++ [OEvent.setOnboardData r.world_data] : List (OEvent ρ α))).countP
                (fun e => isStartOnboard e) = 0 := by
              refine countP_eq_zero_of_all _ _ ?_
              intro e he
              simp only [List.mem_append, List.mem_map, List.mem_singleton] at he
              rcases he with ⟨x, _, hx⟩ | rfl
              · rw [← hx]
                rfl
              · rfl
            simp only [List.countP_cons, hmap]
            rfl
          · have hmap : ((wes.map OEvent.onboardEvt
                ++ [OEvent.setOnboardData r.world_data] : List (OEvent ρ α))).countP
                (fun e => isStartOnboardKind kind' e) = 0 := by
              refine countP_eq_zero_of_all _ _ ?_
              intro e he
              simp only [List.mem_append, List.mem_map, List.mem_singleton] at he
              rcases he with ⟨x, _, hx⟩ | rfl
              · rw [← hx]
                rfl
              · rfl
            simp only [List.countP_cons, hmap]
            simp [isStartOnboardKind]
          · refine countP_eq_zero_of_all _ _ ?_
            intro e he
            simp only [List.mem_cons, List.mem_append, List.mem_singleton] at he
            rcases he with rfl | rfl | he | rfl | he
            · rfl
            · rfl
            · rw [hws e he]
              rfl
            · rfl
            · simp at he
        · intro hk
          exact absurd hk (by simp)

/-- Overworld environment refuting C5 as stated: route 0 is produced, the
agent returns immediately, the stop flag sets at read 1. -/
def envC5 : OverEnv Nat Nat Nat :=
  ⟨fun j => decide (1 ≤ j), fun _ => some 0, fun _ => true,
    fun _ => ⟨fun _ => true, fun _ => 0, false, []⟩, fun _ => 0⟩

/-- Counterexample to C5 as stated: route value 0 is a key of the
route-to-onboarding map (it maps to the empty string), yet the loop runs no
onboarding task-world loop at all — `if onboard_type:` is false for the
empty string — while the manager is still notified with the route value. -/
theorem onboarding_skipped_for_falsy_map_value :
    ((fun _ => some "" : Nat → Option String) 0).isSome = true ∧
    (overLoop envC5 (fun _ => some "") 3 ⟨0, 0, 0, 0⟩ taskC none).2.2.2.countP
      (fun e => isStartOnboard e) = 0 ∧
    OEvent.addToPool 0 ∈ (overLoop envC5 (fun _ => some "") 3 ⟨0, 0, 0, 0⟩ taskC none).2.2.2 := by
  refine ⟨rfl, by decide, by decide⟩

/-- Overworld environment for the C5 witness: the stop flag never sets, the
agent returns immediately, onboarding sessions finish at once. -/
def envW5 : OverEnv Nat Nat Nat :=
  ⟨fun _ => false, fun _ => some 3, fun _ => true,
    fun _ => ⟨fun _ => true, fun _ => 0, false, []⟩, fun _ => 9⟩

/-- Witness for `onboarding_routing`: a concrete iteration whose route maps
to the truthy onboarding kind "onb" runs exactly that one onboarding loop
before the pool notification, and a concrete iteration with no map entry
runs none while still notifying. -/
theorem onboarding_routing_witness :
    (∃ pre post,
      ([.createAgent, .setActiveAgent, .assignAgentToTask, .startOnboard "onb",
        .onboardEvt .release, .setOnboardData [], .addToPool 3, .log, .sleepLong,
        .returnOverworld] : List (OEvent Nat Nat)) = pre ++ OEvent.addToPool 3 :: post ∧
      pre.countP (fun e => isStartOnboard e) = 1 ∧
      pre.countP (fun e => isStartOnboardKind "onb" e) = 1 ∧
      post.countP (fun e => isStartOnboard e) = 0) ∧
    ([.addToPool 3, .log, .sleepLong, .returnOverworld] : List (OEvent Nat Nat)).countP
      (fun e => isStartOnboard e) = 0 := by
  constructor
  · exact (onboarding_routing envW5 (fun _ => some "onb") 2 ⟨1, 1, 0, 0⟩ taskC 3
      ⟨1, 1, 1, 1⟩ { taskC with world := some 9 }
      [.createAgent, .setActiveAgent, .assignAgentToTask, .startOnboard "onb",
        .onboardEvt .release, .setOnboardData [], .addToPool 3, .log, .sleepLong,
        .returnOverworld] (by decide)).1 "onb" rfl
  · exact ((onboarding_routing envW5 (fun _ => none) 2 ⟨1, 1, 0, 0⟩ taskC 3
      ⟨1, 1, 1, 0⟩ taskC [.addToPool 3, .log, .sleepLong, .returnOverworld]
      (by decide)).2 rfl).1

/-! ## C6: null-route spans -/

/-- Span lemma: while the supervisory step keeps returning a null route and
the stop flag stays false, each iteration of the overworld loop emits
exactly one short re-poll sleep and changes nothing but its own read
counters; after the span the loop continues from the advanced counters. -/
theorem overLoop_null_span {ρ α σ : Type} (env : OverEnv ρ α σ) (m : ρ → Option String) :
    ∀ n fuel st (task : TaskObj σ) last,
      (∀ k, k < n → env.route (st.p + k) = none) →
      (∀ k, k < n → env.stop (st.j + k) = false) →
      overLoop env m (n + fuel) st task last =
        ((overLoop env m fuel ⟨st.j + n, st.p + n, st.a, st.o⟩ task
            (if n = 0 then last else some none)).1,
          (overLoop env m fuel ⟨st.j + n, st.p + n, st.a, st.o⟩ task
            (if n = 0 then last else some none)).2.1,
          (overLoop env m fuel ⟨st.j + n, st.p + n, st.a, st.o⟩ task
            (if n = 0 then last else some none)).2.2.1,
          List.replicate n .sleepShort ++
            (overLoop env m fuel ⟨st.j + n, st.p + n, st.a, st.o⟩ task
              (if n = 0 then last else some none)).2.2.2) := by
  intro n
  induction n with
  | zero =>
    intro fuel st task last _ _
    have hst : (⟨st.j + 0, st.p + 0, st.a, st.o⟩ : OverSt) = st := by
      simp
    rw [hst]
    simp
  | succ n ih =>
    intro fuel st task last hr hs
    have hfl : n + 1 + fuel = (n + fuel) + 1 := by omega
    rw [hfl]
    have hstop : env.stop st.j = false := by simpa using hs 0 (Nat.succ_pos n)
    have hroute : env.route st.p = none := by simpa using hr 0 (Nat.succ_pos n)
    rw [overLoop_step env m (n + fuel) st task last hstop]
    simp only [hroute]
    have hih := ih fuel ⟨st.j + 1, st.p + 1, st.a, st.o⟩ task (some none)
      (by
        intro k hk
        have := hr (k + 1) (by omega)
        have harith : st.p + (k + 1) = st.p + 1 + k := by omega
        rwa [harith] at this)
      (by
        intro k hk
        have := hs (k + 1) (by omega)
        have harith : st.j + (k + 1) = st.j + 1 + k := by omega
        rwa [harith] at this)
    rw [hih]
    have hj : st.j + 1 + n = st.j + (n + 1) := by omega
    have hp : st.p + 1 + n = st.p + (n + 1) := by omega
    simp only [hj, hp, ite_self, Nat.succ_ne_zero, if_neg, List.replicate_succ,
      List.cons_append]
    simp

/-- C6 (amended): over a span of `n` supervisory steps whose route values
are all null — Python `None`, the only value line 140's `is None` test
re-polls on — the overworld loop performs exactly one short-delay re-poll
per step and issues no manager-collaborator call during the span; only its
read counters advance, the registry entry is untouched, and the loop
continues after the span.  (An empty-but-non-null route, such as the empty
string, is not re-polled: it falls through to the pool notification.) -/
theorem null_route_span_repolls_only {ρ α σ : Type} (env : OverEnv ρ α σ)
    (m : ρ → Option String) (n fuel : Nat) (st : OverSt) (task : TaskObj σ)
    (last : Option (Option ρ))
    (hr : ∀ k, k < n → env.route (st.p + k) = none)
    (hs : ∀ k, k < n → env.stop (st.j + k) = false) :
    overLoop env m (n + fuel) st task last =
      ((overLoop env m fuel ⟨st.j + n, st.p + n, st.a, st.o⟩ task
          (if n = 0 then last else some none)).1,
        (overLoop env m fuel ⟨st.j + n, st.p + n, st.a, st.o⟩ task
          (if n = 0 then last else some none)).2.1,
        (overLoop env m fuel ⟨st.j + n, st.p + n, st.a, st.o⟩ task
          (if n = 0 then last else some none)).2.2.1,
        List.replicate n .sleepShort ++
          (overLoop env m fuel ⟨st.j + n, st.p + n, st.a, st.o⟩ task
            (if n = 0 then last else some none)).2.2.2) ∧
    (List.replicate n (OEvent.sleepShort : OEvent ρ α)).countP
      (fun e => isManagerCall e) = 0 := by
  refine ⟨overLoop_null_span env m n fuel st task last hr hs, ?_⟩
  refine countP_eq_zero_of_all _ _ ?_
  intro e he
  rw [List.eq_of_mem_replicate he]
  rfl

/-- Overworld environment for the C6 witness: five null supervisory steps,
then the stop flag sets at read 5. -/
def envW6 : OverEnv Nat Nat Nat :=
  ⟨fun j => decide (5 ≤ j), fun _ => none, fun _ => false,
    fun _ => ⟨fun _ => true, fun _ => 0, false, []⟩, fun _ => 0⟩

/-- Witness for `null_route_span_repolls_only`: five consecutive null
routes produce exactly five short re-poll sleeps and zero manager calls. -/
theorem null_route_span_repolls_only_witness :
    overLoop envW6 (fun _ => none) (5 + 1) ⟨0, 0, 0, 0⟩ taskC none =
      ((overLoop envW6 (fun _ => none) 1 ⟨0 + 5, 0 + 5, 0, 0⟩ taskC
          (if 5 = 0 then none else some none)).1,
        (overLoop envW6 (fun _ => none) 1 ⟨0 + 5, 0 + 5, 0, 0⟩ taskC
          (if 5 = 0 then none else some none)).2.1,
        (overLoop envW6 (fun _ => none) 1 ⟨0 + 5, 0 + 5, 0, 0⟩ taskC
          (if 5 = 0 then none else some none)).2.2.1,
        List.replicate 5 .sleepShort ++
          (overLoop envW6 (fun _ => none) 1 ⟨0 + 5, 0 + 5, 0, 0⟩ taskC
            (if 5 = 0 then none else some none)).2.2.2) ∧
    (List.replicate 5 (OEvent.sleepShort : OEvent Nat Nat)).countP
      (fun e => isManagerCall e) = 0 := by
  refine null_route_span_repolls_only envW6 (fun _ => none) 5 1 ⟨0, 0, 0, 0⟩ taskC none
    (fun k _ => rfl) ?_
  intro k hk
  show decide (5 ≤ 0 + k) = false
  rw [decide_eq_false]
  omega

/-- Overworld environment for the C6 counterexample: every supervisory
step returns the empty string — an empty but non-null route — the agent
returns immediately, and the stop flag sets at read 1. -/
def envC6 : OverEnv String Nat Nat :=
  ⟨fun j => decide (1 ≤ j), fun _ => some "", fun _ => true,
    fun _ => ⟨fun _ => true, fun _ => 0, false, []⟩, fun _ => 0⟩

/-- Counterexample to C6 as stated: an empty (but non-null) route value is
not re-polled, because line 140 tests `world_type is None`, not falsiness.
The supervisory step returning the empty string performs no short-delay
re-poll at all; instead it falls through the iteration body and calls the
manager's add-to-pool notification with that empty route — a
manager-collaborator call inside a span of empty routes. -/
theorem empty_route_not_repolled :
    (overLoop envC6 (fun _ => none) 3 ⟨0, 0, 0, 0⟩ taskC none).2.2.2 =
      [.addToPool "", .log, .sleepLong, .returnOverworld] ∧
    isManagerCall (OEvent.addToPool "" : OEvent String Nat) = true ∧
    (overLoop envC6 (fun _ => none) 3 ⟨0, 0, 0, 0⟩ taskC none).2.2.2.countP
      (fun e => isManagerCall e) = 1 ∧
    (overLoop envC6 (fun _ => none) 3 ⟨0, 0, 0, 0⟩ taskC none).2.2.2.countP
      (fun e => match e with | OEvent.sleepShort => true | _ => false) = 0 := by
  refine ⟨by decide, rfl, by decide, by decide⟩

/-! ## C7: relaunching under an existing task name -/

/-- Looking up a key right after assigning it yields the assigned value. -/
theorem assocGet_assocSet_same (l : List (String × Nat)) (k : String) (v : Nat) :
    assocGet (assocSet l k v) k = some v := by
  induction l with
  | nil => simp [assocSet, assocGet]
  | cons h t ih =>
    rcases h with ⟨k', v'⟩
    by_cases hk : k' = k
    · simp [assocSet, assocGet, hk]
    · simp only [assocSet, if_neg hk]
      simp only [assocGet, if_neg hk]
      exact ih

/-- In-place heap update preserves length. -/
theorem listModify_length {σ : Type} (f : TaskObj σ → TaskObj σ) :
    ∀ i (l : List (TaskObj σ)), (listModify f i l).length = l.length := by
  intro i l
  induction l generalizing i with
  | nil => simp [listModify]
  | cons x t ih =>
    rcases i with _ | i
    · rfl
    · simpa [listModify] using ih i

/-- In-place heap update leaves every other index unchanged. -/
theorem listModify_getElem?_ne {σ : Type} (f : TaskObj σ → TaskObj σ) :
    ∀ i j (l : List (TaskObj σ)), i ≠ j → (listModify f i l)[j]? = l[j]? := by
  intro i j l
  induction l generalizing i j with
  | nil => intro _; simp [listModify]
  | cons x t ih =>
    intro hij
    rcases i with _ | i
    · rcases j with _ | j
      · exact absurd rfl hij
      · simp [listModify]
    · rcases j with _ | j
      · simp [listModify]
      · simpa [listModify] using ih i j (by omega)

/-- In-place heap update applies the mutation at its own index. -/
theorem listModify_getElem?_self {σ : Type} (f : TaskObj σ → TaskObj σ) :
    ∀ i (l : List (TaskObj σ)), (listModify f i l)[i]? = l[i]?.map f := by
  intro i l
  induction l generalizing i with
  | nil => simp [listModify]
  | cons x t ih =>
    rcases i with _ | i
    · simp [listModify]
    · simpa [listModify] using ih i

/-- C7: launching a second task under an already-used task name rebinds the
registry key to the new entry, but the first launch's task object — with
its stored future handle — and its submitted job are left byte-for-byte
unchanged; the second job is submitted in addition to, not instead of, the
first. -/
theorem relaunch_same_name_overwrites_registry_only {σ : Type} (r : Runner σ)
    (n w1 w2 : String) (a1 a2 : List String) :
    assocGet (launch_task_world r n w1 a1).1.registry n = some r.objects.length ∧
    assocGet (launch_task_world (launch_task_world r n w1 a1).1 n w2 a2).1.registry n =
      some (r.objects.length + 1) ∧
    (launch_task_world (launch_task_world r n w1 a1).1 n w2 a2).1.objects[r.objects.length]? =
      some ⟨n, w1, a1, false, none, some r.jobs.length⟩ ∧
    (launch_task_world r n w1 a1).1.jobs =
      r.jobs ++ [⟨r.objects.length, r.jobs.length⟩] ∧
    (launch_task_world (launch_task_world r n w1 a1).1 n w2 a2).1.jobs =
      r.jobs ++ [⟨r.objects.length, r.jobs.length⟩]
        ++ [⟨r.objects.length + 1, r.jobs.length + 1⟩] := by
  have hlen1 : (launch_task_world r n w1 a1).1.objects.length = r.objects.length + 1 := by
    show (listModify _ _ (r.objects ++ [_])).length = _
    rw [listModify_length]
    simp
  have hjobs1 : (launch_task_world r n w1 a1).1.jobs.length = r.jobs.length + 1 := by
    show (r.jobs ++ [_]).length = _
    simp
  refine ⟨assocGet_assocSet_same _ _ _, ?_, ?_, rfl, ?_⟩
  · show assocGet (assocSet _ n (launch_task_world r n w1 a1).1.objects.length) n = _
    rw [assocGet_assocSet_same, hlen1]
  · show (listModify _ ((launch_task_world r n w1 a1).1.objects.length)
      ((launch_task_world r n w1 a1).1.objects ++ [_]))[r.objects.length]? = _
    rw [listModify_getElem?_ne _ _ _ _ (by omega)]
    rw [List.getElem?_append, if_pos (by omega)]
    show (listModify (fun o => { o with future := some r.jobs.length }) r.objects.length
      (r.objects ++ [⟨n, w1, a1, false, none, none⟩]))[r.objects.length]? = _
    rw [listModify_getElem?_self]
    rw [List.getElem?_concat_length]
    rfl
  · show (launch_task_world r n w1 a1).1.jobs
      ++ [⟨(launch_task_world r n w1 a1).1.objects.length,
            (launch_task_world r n w1 a1).1.jobs.length⟩] = _
    rw [hlen1, hjobs1]
    rfl

/-! ## C8: who populates the session-instance field -/

/-- With no truthy onboarding route anywhere in the map, the overworld loop
never touches the registry entry: `_world_function` contains no
`task.world = ...` assignment, only its onboarding `_run_world` calls do. -/
theorem overLoop_task_unchanged {ρ α σ : Type} (env : OverEnv ρ α σ)
    (m : ρ → Option String) (hm : ∀ rt, truthyStr (m rt) = none) :
    ∀ fuel st (task : TaskObj σ) last, (overLoop env m fuel st task last).2.2.1 = task := by
  intro fuel
  induction fuel with
  | zero =>
    intro st task last
    rfl
  | succ fuel ih =>
    intro st task last
    by_cases hstop : env.stop st.j
    · rcases last with _ | v
      · rw [overLoop, if_pos hstop]
      · rw [overLoop, if_pos hstop]
    · have hstop' : env.stop st.j = false := by simpa using hstop
      rw [overLoop_step env m fuel st task last hstop']
      rcases hroute : env.route st.p with _ | rt
      · simp only
        exact ih _ _ _
      · simp only
        rw [overIter]
        simp only [hm rt]
        rcases hw : waitReturn env fuel st.a with ⟨o, ws⟩
        rcases o with _ | a'
        · rfl
        · exact ih _ _ _

/-- C8 (amended): every registry entry — task world and overworld alike —
is created with a null session-instance field; a task world's loop stores
the session it constructs on the entry as soon as it starts, making it
visible to shutdown's release pass.  The overworld loop, however, never
stores its supervisory session on the entry: in any run with no truthy
onboarding route, the entry is returned exactly as it was given (in
particular with a null session field). -/
theorem session_field_population {ρ α σ : Type} :
    (∀ (r : Runner σ) nm wn ags,
      (launch_task_world r nm wn ags).1.objects[r.objects.length]? =
        some ⟨nm, wn, ags, false, none, some r.jobs.length⟩) ∧
    (∀ (r : Runner σ) nm own ags,
      (launch_overworld r nm own ags).1.objects[r.objects.length]? =
        some ⟨nm, own, ags, true, none, some r.jobs.length⟩) ∧
    (∀ (w : World α) (sid : σ) stop fuel j0 (task : TaskObj σ),
      (run_world w sid stop fuel j0 task).2.1.world = some sid) ∧
    (∀ (env : OverEnv ρ α σ) (m : ρ → Option String),
      (∀ rt, truthyStr (m rt) = none) →
      ∀ fuel st (task : TaskObj σ) last,
        (overLoop env m fuel st task last).2.2.1 = task) := by
  refine ⟨?_, ?_, ?_, fun env m hm => overLoop_task_unchanged env m hm⟩
  · intro r nm wn ags
    show (listModify _ r.objects.length (r.objects ++ [_]))[r.objects.length]? = _
    rw [listModify_getElem?_self, List.getElem?_concat_length]
    rfl
  · intro r nm own ags
    show (listModify _ r.objects.length (r.objects ++ [_]))[r.objects.length]? = _
    rw [listModify_getElem?_self, List.getElem?_concat_length]
    rfl
  · intro w sid stop fuel j0 task
    rcases hp : parleyLoop w stop fuel 0 j0 none with ⟨o, es⟩
    rcases o with _ | x
    · rw [run_world]
      simp only [hp]
    · rcases x with ⟨ret, i, j⟩
      rw [run_world]
      simp only [hp]

/-- Overworld environment for the C8 counterexample and witness: two null
supervisory steps, then the stop flag sets at read 2. -/
def envC8 : OverEnv Nat Nat Nat :=
  ⟨fun j => decide (2 ≤ j), fun _ => none, fun _ => false,
    fun _ => ⟨fun _ => true, fun _ => 0, false, []⟩, fun _ => 0⟩

/-- Counterexample to C8 as stated: the overworld entry is created with a
null session field, and after a run of its loop that made two supervisory
steps (so the supervisory session was constructed and stepped) and exited
on the stop flag, the field is still null — the loop never populated it, so
shutdown's release pass cannot reach the supervisory session. -/
theorem overworld_session_never_stored :
    (launch_overworld (mkRunner Nat) "t" "ow" ["a"]).1.objects[0]? =
      some ⟨"t", "ow", ["a"], true, none, some 0⟩ ∧
    (overLoop envC8 (fun _ => none) 5 ⟨0, 0, 0, 0⟩
      ⟨"t", "ow", ["a"], true, none, some 0⟩ none).1 = OverOutcome.ret none ∧
    (overLoop envC8 (fun _ => none) 5 ⟨0, 0, 0, 0⟩
      ⟨"t", "ow", ["a"], true, none, some 0⟩ none).2.1.p = 2 ∧
    (overLoop envC8 (fun _ => none) 5 ⟨0, 0, 0, 0⟩
      ⟨"t", "ow", ["a"], true, none, some 0⟩ none).2.2.1.world = none := by
  refine ⟨by decide, by decide, by decide, by decide⟩

/-- Witness for `session_field_population` at concrete launches, a concrete
task-world run, and a concrete overworld run with an empty onboarding
map. -/
theorem session_field_population_witness :
    (launch_task_world (mkRunner Nat) "t" "w" ["a"]).1.objects[0]? =
      some ⟨"t", "w", ["a"], false, none, some 0⟩ ∧
    (launch_overworld (mkRunner Nat) "t2" "ow" ["b"]).1.objects[0]? =
      some ⟨"t2", "ow", ["b"], true, none, some 0⟩ ∧
    (run_world w3c 5 stop3c 10 0 task3c).2.1.world = some 5 ∧
    (overLoop envC8 (fun _ => none) 4 ⟨0, 0, 0, 0⟩ taskC none).2.2.1 = taskC := by
  refine ⟨?_, ?_, ?_, ?_⟩
  · exact (session_field_population (ρ := Nat) (α := Nat) (σ := Nat)).1 (mkRunner Nat)
      "t" "w" ["a"]
  · exact (session_field_population (ρ := Nat) (α := Nat) (σ := Nat)).2.1 (mkRunner Nat)
      "t2" "ow" ["b"]
  · exact (session_field_population (ρ := Nat) (α := Nat) (σ := Nat)).2.2.1 w3c 5 stop3c
      10 0 task3c
  · exact (session_field_population (ρ := Nat) (α := Nat) (σ := Nat)).2.2.2 envC8
      (fun _ => none) (fun _ => rfl) 4 ⟨0, 0, 0, 0⟩ taskC none

/-! ## C2: release errors during shutdown -/

/-- A release pass that throws does so on a session whose release raises. -/
theorem releasePass_error {σ : Type} (objs : List (TaskObj σ)) (raises : σ → Bool) :
    ∀ reg s, releasePass objs raises reg = .error s → raises s = true := by
  intro reg
  induction reg with
  | nil =>
    intro s h
    simp [releasePass] at h
  | cons x t ih =>
    intro s h
    rcases x with ⟨nm, oid⟩
    rw [releasePass] at h
    rcases hww : (objs.getD oid defaultTaskObj).world with _ | w
    · simp only [hww] at h
      exact ih s h
    · simp only [hww] at h
      by_cases hrw : raises w
      · rw [if_pos hrw] at h
        have hsw : w = s := by simpa using h
        rw [← hsw]
        exact hrw
      · rw [if_neg hrw] at h
        rcases hrec : releasePass objs raises t with e | rest
        · rw [hrec] at h
          have hes : e = s := by simpa using h
          rw [← hes]
          exact ih e hrec
        · rw [hrec] at h
          simp at h

/-- A release pass that returns normally released only sessions whose
release did not raise. -/
theorem releasePass_ok {σ : Type} (objs : List (TaskObj σ)) (raises : σ → Bool) :
    ∀ reg rel, releasePass objs raises reg = .ok rel → ∀ s ∈ rel, raises s = false := by
  intro reg
  induction reg with
  | nil =>
    intro rel h s hs
    have : rel = [] := by simpa [releasePass] using h.symm
    rw [this] at hs
    simp at hs
  | cons x t ih =>
    intro rel h s hs
    rcases x with ⟨nm, oid⟩
    rw [releasePass] at h
    rcases hww : (objs.getD oid defaultTaskObj).world with _ | w
    · simp only [hww] at h
      exact ih rel h s hs
    · simp only [hww] at h
      by_cases hrw : raises w
      · rw [if_pos hrw] at h
        simp at h
      · rw [if_neg hrw] at h
        rcases hrec : releasePass objs raises t with e | rest
        · rw [hrec] at h
          simp at h
        · rw [hrec] at h
          have hrel : w :: rest = rel := by simpa using h
          rw [← hrel] at hs
          rcases List.mem_cons.mp hs with rfl | hs'
          · simpa using hrw
          · exact ih rest hrec s hs'

/-- C2 (amended): `shutdown` wraps its release pass in no exception
handler.  If a session's release raises, the exception propagates out of
`shutdown` before the stop-flag assignment and the pool drain are reached;
only when every release succeeds does `shutdown` set the stop flag, drain
the pool, and report the released sessions. -/
theorem shutdown_release_error_propagates {σ : Type} (r : Runner σ) (raises : σ → Bool) :
    (∀ s, shutdown r raises = .error s → raises s = true) ∧
    (∀ r' rel, shutdown r raises = .ok (r', rel) →
      r'.system_done = true ∧ r'.drained = true ∧ ∀ s ∈ rel, raises s = false) := by
  constructor
  · intro s h
    rw [shutdown] at h
    rcases hrp : releasePass r.objects raises r.registry with e | rel
    · rw [hrp] at h
      have hes : e = s := by simpa using h
      rw [← hes]
      exact releasePass_error r.objects raises r.registry e hrp
    · rw [hrp] at h
      simp at h
  · intro r' rel h
    rw [shutdown] at h
    rcases hrp : releasePass r.objects raises r.registry with e | rel0
    · rw [hrp] at h
      simp at h
    · rw [hrp] at h
      obtain ⟨h1, h2⟩ := by simpa using h
      refine ⟨?_, ?_, ?_⟩
      · rw [← h1]
      · rw [← h1]
      · rw [← h2]
        exact releasePass_ok r.objects raises r.registry rel0 hrp

/-- Concrete runner with one registry entry whose stored session is 7. -/
def rC2 : Runner Nat :=
  ⟨false, false, [⟨"t", "w", [], false, some 7, some 0⟩], [("t", 0)], [⟨0, 0⟩]⟩

/-- Counterexample to C2 as stated: when releasing session 7 raises, the
error is not swallowed — `shutdown` propagates it, so it returns no updated
state at all: the stop flag is never set and the pool is never drained. -/
theorem shutdown_not_swallowing :
    shutdown rC2 (fun s => s == 7) = .error 7 := by
  rfl

/-- Witness for `shutdown_release_error_propagates`: the session blamed by
the concrete failing shutdown indeed raises, and the concrete succeeding
shutdown sets the stop flag and drains the pool. -/
theorem shutdown_release_error_propagates_witness :
    ((fun s : Nat => s == 7) 7 = true) ∧
    ({ rC2 with system_done := true, drained := true } : Runner Nat).system_done = true ∧
    ({ rC2 with system_done := true, drained := true } : Runner Nat).drained = true := by
  refine ⟨(shutdown_release_error_propagates rC2 (fun s => s == 7)).1 7 (by rfl), ?_, ?_⟩
  · exact ((shutdown_release_error_propagates rC2 (fun _ => false)).2
      { rC2 with system_done := true, drained := true } [7] (by rfl)).1
  · exact ((shutdown_release_error_propagates rC2 (fun _ => false)).2
      { rC2 with system_done := true, drained := true } [7] (by rfl)).2.1

/-! ## C9: stop-flag discipline -/

/-- C9: the shared stop flag is false at construction; launches never touch
it; a successful shutdown always sets it to true; no operation ever turns
it back to false (monotone); and the only operation that can change it is
shutdown.  (The execution loops receive the flag as the read-only input
stream `stop` and return no flag value, so they cannot write it.) -/
theorem stop_flag_discipline {σ : Type} :
    (mkRunner σ).system_done = false ∧
    (∀ (r : Runner σ) (op : Op σ), r.system_done = true →
      (applyOp r op).system_done = true) ∧
    (∀ (r : Runner σ) (n w : String) (a : List String),
      (launch_task_world r n w a).1.system_done = r.system_done) ∧
    (∀ (r : Runner σ) (n o : String) (a : List String),
      (launch_overworld r n o a).1.system_done = r.system_done) ∧
    (∀ (r : Runner σ) (f : σ → Bool) r' rel, shutdown r f = .ok (r', rel) →
      r'.system_done = true) ∧
    (∀ (r : Runner σ) (op : Op σ), (applyOp r op).system_done = true →
      r.system_done = true ∨ ∃ f, op = Op.doShutdown f) := by
  have hshut : ∀ (r : Runner σ) (f : σ → Bool) r' rel, shutdown r f = .ok (r', rel) →
      r'.system_done = true := by
    intro r f r' rel h
    rw [shutdown] at h
    rcases hrp : releasePass r.objects f r.registry with e | rel0
    · rw [hrp] at h
      simp at h
    · rw [hrp] at h
      obtain ⟨h1, _⟩ := by simpa using h
      rw [← h1]
  refine ⟨rfl, ?_, fun _ _ _ _ => rfl, fun _ _ _ _ => rfl, hshut, ?_⟩
  · intro r op hflag
    rcases op with ⟨n, w, a⟩ | ⟨n, o, a⟩ | f
    · exact hflag
    · exact hflag
    · rcases hsd : shutdown r f with e | ⟨r', rel⟩
      · rw [applyOp]
        rw [hsd]
        exact hflag
      · rw [applyOp]
        rw [hsd]
        exact hshut r f r' rel hsd
  · intro r op hflag
    rcases op with ⟨n, w, a⟩ | ⟨n, o, a⟩ | f
    · exact Or.inl hflag
    · exact Or.inl hflag
    · exact Or.inr ⟨f, rfl⟩

/-- Runner whose flag is already set, for the C9 witness. -/
def rTrue : Runner Nat := ⟨true, false, [], [], []⟩

/-- Witness for `stop_flag_discipline`: the flag starts false on a freshly
constructed runner, survives a launch once set, and a concrete successful
shutdown sets it. -/
theorem stop_flag_discipline_witness :
    (mkRunner Nat).system_done = false ∧
    (applyOp rTrue (Op.launchTask "a" "b" [])).system_done = true ∧
    ({ mkRunner Nat with system_done := true, drained := true } : Runner Nat).system_done
      = true := by
  refine ⟨(stop_flag_discipline (σ := Nat)).1, ?_, ?_⟩
  · exact (stop_flag_discipline (σ := Nat)).2.1 rTrue (Op.launchTask "a" "b" []) rfl
  · exact (stop_flag_discipline (σ := Nat)).2.2.2.2.1 (mkRunner Nat) (fun _ => false)
      { mkRunner Nat with system_done := true, drained := true } [] (by rfl)

/-! ## C10: double release under shutdown -/

/-- Termination of the task-world check loop once the stop flag is set from
read `k` on, for a session whose episode never completes. -/
theorem parleyLoop_terminates_after_stop {α : Type} (w : World α) (k : Nat)
    (hE : ∀ i, w.episode_done i = false) :
    ∀ fuel i j ret, 0 < fuel → k < j + fuel →
      ((parleyLoop w (fun j' => decide (k ≤ j')) fuel i j ret).1).isSome = true := by
  intro fuel
  induction fuel with
  | zero =>
    intro i j ret h0 _
    exact absurd h0 (by omega)
  | succ fuel ih =>
    intro i j ret _ hk
    rw [parleyLoop]
    rw [hE i]
    by_cases hj : k ≤ j
    · rw [if_neg (by simp), if_pos (by simpa using hj)]
      rfl
    · rw [if_neg (by simp), if_neg (by simpa using hj)]
      have : 0 < fuel := by omega
      simpa using ih (i + 1) (j + 1) (some (w.parley i)) this (by omega)

/-- C10: when shutdown's release pass runs while a task-world loop is
mid-run — the loop's session `s` already stored on the lone registry entry,
its episode never complete — the session's release is invoked twice: the
pass releases `s` (and only then sets the flag), and the loop, once it
observes the flag at read `k`, exits and performs its own release — one
release from each side rather than exactly once in total. -/
theorem session_released_twice_on_shutdown {σ α : Type} (r : Runner σ) (nm : String)
    (s : σ) (obj : TaskObj σ) (w : World α) (task : TaskObj σ) (k : Nat)
    (hreg : r.registry = [(nm, 0)]) (hobj : r.objects = [obj]) (hw : obj.world = some s)
    (hE : ∀ i, w.episode_done i = false) :
    shutdown r (fun _ => false) =
      .ok ({ r with system_done := true, drained := true }, [s]) ∧
    (∃ res task' es,
      run_world w s (fun j' => decide (k ≤ j')) (k + 2) 0 task = (some res, task', es) ∧
      es.countP (fun e => isRelease e) = 1) := by
  constructor
  · rw [shutdown, hreg, hobj]
    rw [releasePass]
    have hget : (([obj] : List (TaskObj σ)).getD 0 defaultTaskObj) = obj := rfl
    rw [hget, hw]
    rfl
  · rcases hp : parleyLoop w (fun j' => decide (k ≤ j')) (k + 2) 0 0 none with ⟨o, es0⟩
    have hsome := parleyLoop_terminates_after_stop w k hE (k + 2) 0 0 none
      (by omega) (by omega)
    rw [hp] at hsome
    rcases o with _ | x
    · simp at hsome
    · rcases x with ⟨ret, i, j⟩
      refine ⟨⟨ret, if w.has_data then w.data else [], i, j⟩,
        { task with world := some s }, es0 ++ [.release], ?_, ?_⟩
      · rw [run_world]
        simp only [hp]
      · obtain ⟨_, _, _, _, _, hf⟩ :=
          parleyLoop_sound w (fun j' => decide (k ≤ j')) (k + 2) 0 0 none ret i j es0 hp
        rw [List.countP_append, hf]
        rfl

/-- Session whose episode never completes, for the C10 witness. -/
def wC10 : World Nat := ⟨fun _ => false, fun i => i, false, []⟩

/-- Witness for `session_released_twice_on_shutdown`: the concrete runner
`rC2` holding session 7 and a loop stopped at flag read 1. -/
theorem session_released_twice_on_shutdown_witness :
    shutdown rC2 (fun _ => false) =
      .ok ({ rC2 with system_done := true, drained := true }, [7]) ∧
    (∃ res task' es,
      run_world wC10 7 (fun j' => decide (1 ≤ j')) (1 + 2) 0 task3c = (some res, task', es) ∧
      es.countP (fun e => isRelease e) = 1) := by
  exact session_released_twice_on_shutdown rC2 "t" 7 ⟨"t", "w", [], false, some 7, some 0⟩
    wC10 task3c 1 rfl rfl rfl (fun _ => rfl)

end WorldRunner
